import Mathlib

/-!
Shallow embedding of the CHIP-8 interpreter core from `src/chip8.c`
(`chip8_t`, `init_chip8`, `emulate_instruction`).

Machine integers are modelled as `Nat` with explicit truncation:
`u8` for `uint8_t`, `u16` for `uint16_t`.  The fixed C arrays
(`ram[4096]`, `stack[12]`, `keypad[16]`) are modelled as total
functions `Nat → _`; every access the C code performs on them is
guarded by the array bound, and an access the C code would perform
out of bounds (undefined behavior in C) makes the step return `none`.
The `display[64*32]` array is modelled as a total function: the draw
loop of the source keeps `0 ≤ Y_coord < 32` and `0 ≤ X_coord < 64`
at every access (both coordinates are reduced mod the screen size on
entry and the loop breaks before an increment can leave the range),
so the C code never accesses it out of bounds.

`config.window_width = 64` and `config.window_height = 32`: these are
the defaults set by `set_config_from_args` and no command-line
override exists (the argument loop is empty), so the draw code is
embedded with the constants 64 and 32.
-/

/-- Truncation to `uint8_t`. -/
def u8 (n : Nat) : Nat := n % 256

/-- Truncation to `uint16_t`. -/
def u16 (n : Nat) : Nat := n % 65536

/-- `uint8_t` subtraction `a - b` (wrapping), for `a b < 256`. -/
def sub8 (a b : Nat) : Nat := (a + 256 - b) % 256

/-- Pointwise update of a function, modelling a C array store. -/
def upd {α : Type} (f : Nat → α) (i : Nat) (v : α) : Nat → α :=
  fun j => if j = i then v else f j

/-- `emulator_state_t`: the machine run states of the source
(`QUIT`, `RUNNING`, `PAUSED`).  There is no halted/fault state. -/
inductive EmulatorState where
  | QUIT
  | RUNNING
  | PAUSED
deriving DecidableEq

/-- `chip8_t`: the CHIP-8 machine record of the source.
`sp` is the offset of `stack_ptr` from `&stack[0]`. -/
structure Chip8 where
  state : EmulatorState
  ram : Nat → Nat
  display : Nat → Bool
  stack : Nat → Nat
  sp : Nat
  V : Nat → Nat
  I : Nat
  PC : Nat
  delay_timer : Nat
  sound_timer : Nat
  keypad : Nat → Bool

/-- Read a data register as the C code does (`uint8_t` value). -/
def vget (c : Chip8) (x : Nat) : Nat := u8 (c.V x)

/-- The `uint16_t` value of the index register. -/
def iget (c : Chip8) : Nat := u16 c.I

/-- The `uint16_t` value of the program counter. -/
def pcget (c : Chip8) : Nat := u16 c.PC

/-- `chip8->ram[a]`: guarded read of the 4096-byte memory. -/
def ramRead (c : Chip8) (a : Nat) : Option Nat :=
  if a < 4096 then some (u8 (c.ram a)) else none

/-- `chip8->ram[a] = v`: guarded write of the 4096-byte memory. -/
def ramWrite (c : Chip8) (a v : Nat) : Option Chip8 :=
  if a < 4096 then some { c with ram := upd c.ram a (u8 v) } else none

/-- `chip8->keypad[i]`: guarded read of the 16-entry keypad. -/
def keyRead (c : Chip8) (i : Nat) : Option Bool :=
  if i < 16 then some (c.keypad i) else none

/-- `sprite_data & (1 << j)` viewed as the C `bool sprite_bit`. -/
def sBit (s j : Nat) : Bool := (s &&& (1 <<< j)) != 0

/-- One iteration of the inner draw loop of `DXYN` at bit `j`,
column `x`, row `y`: XOR the display pixel with the sprite bit and
set the collision flag if both were on. -/
def rowStep (s y j x : Nat) (d : Nat → Bool) (vf : Nat) :
    ((Nat → Bool) × Nat) :=
  let p := y * 64 + x
  let pix := d p
  let sb := sBit s j
  (upd d p (Bool.xor pix sb), if sb && pix then 1 else vf)

/-- The inner draw loop of `DXYN` (`for (int8_t j = 7; j >= 0; j--)`),
starting at bit `j` and column `x`; stops after the bit whose column
increment reaches the right edge (`if (++X_coord >= 64) break`). -/
def drawRowAux (s y : Nat) : Nat → Nat → (Nat → Bool) → Nat → ((Nat → Bool) × Nat)
  | 0, x, d, vf => rowStep s y 0 x d vf
  | j + 1, x, d, vf =>
    let r := rowStep s y (j + 1) x d vf
    if x + 1 ≥ 64 then r
    else drawRowAux s y j (x + 1) r.1 r.2

/-- The outer draw loop of `DXYN` over sprite rows: row `i` reads
`ram[I + i]` (out of bounds gives `none`), draws it at row `y`
starting from column `ox`, and stops after the row whose row
increment reaches the bottom edge (`if (++Y_coord >= 32) break`).
The first argument of the recursion is the number of rows left. -/
def drawAux (ram : Nat → Nat) (I ox : Nat) :
    Nat → Nat → Nat → (Nat → Bool) → Nat → Option ((Nat → Bool) × Nat)
  | 0, _, _, d, vf => some (d, vf)
  | n + 1, i, y, d, vf =>
    if I + i < 4096 then
      let s := u8 (ram (I + i))
      let r := drawRowAux s y 7 ox d vf
      if y + 1 ≥ 32 then some r
      else drawAux ram I ox n (i + 1) (y + 1) r.1 r.2
    else none

/-- `DXYN` (case `0x0D` of `emulate_instruction`): wrap the start
coordinates, clear `V[0xF]`, run the row loop, store the final
collision flag into `V[0xF]`. -/
def execDraw (c : Chip8) (x y n : Nat) : Option Chip8 :=
  let sx := vget c x % 64
  let sy := vget c y % 32
  match drawAux c.ram (iget c) sx n 0 sy c.display 0 with
  | some r => some { c with display := r.1, V := upd c.V 15 r.2 }
  | none => none

/-- The `case 0x08` sub-dispatch of `emulate_instruction` on the low
nibble `n`.  Note that in the source each flag store into `V[0xF]`
happens BEFORE the arithmetic result is stored into `V[X]`, and the
result store reads the registers after the flag store. -/
def exec8 (c : Chip8) (x y : Nat) : Nat → Option Chip8
  | 0 => some { c with V := upd c.V x (vget c y) }
  | 1 => some { c with V := upd c.V x (vget c x ||| vget c y) }
  | 2 => some { c with V := upd c.V x (vget c x &&& vget c y) }
  | 3 => some { c with V := upd c.V x (vget c x ^^^ vget c y) }
  | 4 =>
    let flag := if vget c x + vget c y > 255 then 1 else 0
    let V1 := upd c.V 15 flag
    some { c with V := upd V1 x (u8 (u8 (V1 x) + u8 (V1 y))) }
  | 5 =>
    let flag := if vget c x ≥ vget c y then 1 else 0
    let V1 := upd c.V 15 flag
    some { c with V := upd V1 x (sub8 (u8 (V1 x)) (u8 (V1 y))) }
  | 6 =>
    let V1 := upd c.V 15 (vget c x &&& 1)
    some { c with V := upd V1 x (u8 (V1 x) >>> 1) }
  | 7 =>
    let flag := if vget c x ≤ vget c y then 1 else 0
    let V1 := upd c.V 15 flag
    some { c with V := upd V1 x (sub8 (u8 (V1 y)) (u8 (V1 x))) }
  | 14 =>
    let V1 := upd c.V 15 ((vget c x &&& 0x80) >>> 7)
    some { c with V := upd V1 x (u8 (u8 (V1 x) <<< 1)) }
  | _ => some c

/-- The `FX0A` keypad scan: index of the lowest pressed key. -/
def findFirstKey (c : Chip8) : Option Nat :=
  (List.range 16).find? (fun i => c.keypad i)

/-- `FX55` loop: `for (i = 0; i <= X; i++) ram[I+i] = V[i]`,
embedded with `k` iterations left and current index `i`. -/
def storeRegs (Vf : Nat → Nat) (base : Nat) : Nat → Nat → (Nat → Nat) → Option (Nat → Nat)
  | _, 0, ram => some ram
  | i, k + 1, ram =>
    if base + i < 4096 then
      storeRegs Vf base (i + 1) k (upd ram (base + i) (u8 (Vf i)))
    else none

/-- `FX65` loop: `for (i = 0; i <= X; i++) V[i] = ram[I+i]`. -/
def loadRegs (ram : Nat → Nat) (base : Nat) : Nat → Nat → (Nat → Nat) → Option (Nat → Nat)
  | _, 0, Vf => some Vf
  | i, k + 1, Vf =>
    if base + i < 4096 then
      loadRegs ram base (i + 1) k (upd Vf i (u8 (ram (base + i))))
    else none

/-- The opcode dispatch of `emulate_instruction`, applied to the
machine state after the `PC += 2` pre-increment.  `r` is the value
returned by `rand()` for this step (only `CXNN` consumes it). -/
def execOp (r : Nat) (c : Chip8) (op : Nat) : Option Chip8 :=
  let nnn := op &&& 0xFFF
  let nn := op &&& 0xFF
  let n := op &&& 0xF
  let x := (op >>> 8) &&& 0xF
  let y := (op >>> 4) &&& 0xF
  match (op >>> 12) &&& 0xF with
  | 0 =>
    if nn = 0xE0 then some { c with display := fun _ => false }
    else if nn = 0xEE then
      if 1 ≤ c.sp ∧ c.sp ≤ 12 then
        some { c with PC := u16 (c.stack (c.sp - 1)), sp := c.sp - 1 }
      else none
    else some c
  | 1 => some { c with PC := nnn }
  | 2 =>
    if c.sp < 12 then
      some { c with stack := upd c.stack c.sp (u16 c.PC), sp := c.sp + 1, PC := nnn }
    else none
  | 3 => some (if vget c x = nn then { c with PC := u16 (c.PC + 2) } else c)
  | 4 => some (if vget c x ≠ nn then { c with PC := u16 (c.PC + 2) } else c)
  | 5 => some (if vget c x = vget c y then { c with PC := u16 (c.PC + 2) } else c)
  | 6 => some { c with V := upd c.V x nn }
  | 7 => some { c with V := upd c.V x (u8 (vget c x + nn)) }
  | 8 => exec8 c x y n
  | 9 => some (if vget c x ≠ vget c y then { c with PC := u16 (c.PC + 2) } else c)
  | 10 => some { c with I := nnn }
  | 11 => some { c with PC := u16 (vget c 0 + nnn) }
  | 12 => some { c with V := upd c.V x (u8 r &&& nn) }
  | 13 => execDraw c x y n
  | 14 =>
    if nn = 0x9E then
      match keyRead c (vget c x) with
      | some b => some (if b then { c with PC := u16 (c.PC + 2) } else c)
      | none => none
    else if nn = 0xA1 then
      match keyRead c (vget c x) with
      | some b => some (if b then c else { c with PC := u16 (c.PC + 2) })
      | none => none
    else some c
  | 15 =>
    match nn with
    | 0x0A =>
      match findFirstKey c with
      | some i => some { c with V := upd c.V x i }
      | none => some { c with PC := u16 (c.PC + 65536 - 2) }
    | 0x1E => some { c with I := u16 (iget c + vget c x) }
    | 0x07 => some { c with V := upd c.V x (u8 c.delay_timer) }
    | 0x15 => some { c with delay_timer := vget c x }
    | 0x18 => some { c with sound_timer := vget c x }
    | 0x29 => some { c with I := u16 (vget c x * 5) }
    | 0x33 =>
      let v := vget c x
      (ramWrite c (iget c + 2) (v % 10)).bind fun ca =>
      (ramWrite ca (iget c + 1) ((v / 10) % 10)).bind fun cb =>
      ramWrite cb (iget c) (v / 10 / 10)
    | 0x55 =>
      match storeRegs c.V (iget c) 0 (x + 1) c.ram with
      | some ram1 => some { c with ram := ram1 }
      | none => none
    | 0x65 =>
      match loadRegs c.ram (iget c) 0 (x + 1) c.V with
      | some V1 => some { c with V := V1 }
      | none => none
    | _ => some c
  | _ => some c

/-- `emulate_instruction`: fetch the big-endian opcode at `PC`
(guarded memory reads), pre-increment `PC` by 2, then dispatch. -/
def emulate (r : Nat) (c : Chip8) : Option Chip8 :=
  match ramRead c (pcget c), ramRead c (pcget c + 1) with
  | some hi, some lo => execOp r { c with PC := u16 (pcget c + 2) } ((hi <<< 8) ||| lo)
  | _, _ => none

/-- The 16-bit word the fetch of `emulate_instruction` assembles at
the current program counter. -/
def opcodeAt (c : Chip8) : Nat :=
  (u8 (c.ram (pcget c)) <<< 8) ||| u8 (c.ram (pcget c + 1))

/-- The 80-byte font table of `init_chip8`. -/
def font : List Nat :=
  [0xF0, 0x90, 0x90, 0x90, 0xF0,
   0x20, 0x60, 0x20, 0x20, 0x70,
   0xF0, 0x10, 0xF0, 0x80, 0xF0,
   0xF0, 0x10, 0xF0, 0x10, 0xF0,
   0x90, 0x90, 0xF0, 0x10, 0x10,
   0xF0, 0x80, 0xF0, 0x10, 0xF0,
   0xF0, 0x80, 0xF0, 0x90, 0xF0,
   0xF0, 0x10, 0x20, 0x40, 0x40,
   0xF0, 0x90, 0xF0, 0x90, 0xF0,
   0xF0, 0x90, 0xF0, 0x10, 0xF0,
   0xF0, 0x90, 0xF0, 0x90, 0x90,
   0xE0, 0x90, 0xE0, 0x90, 0xE0,
   0xF0, 0x80, 0x80, 0x80, 0xF0,
   0xE0, 0x90, 0x90, 0x90, 0xE0,
   0xF0, 0x80, 0xF0, 0x80, 0xF0,
   0xF0, 0x80, 0xF0, 0x80, 0x80]

/-- `init_chip8` on a successfully read ROM: zero-initialized machine
(`chip8_t chip8 = {0}` in `main`), font at `0x000`, ROM at `0x200`,
`state = RUNNING`, `PC = 0x200`, `stack_ptr = &stack[0]`. -/
def initChip8 (rom : List Nat) : Chip8 :=
  { state := EmulatorState.RUNNING
    ram := fun a =>
      if a < 80 then font.getD a 0
      else if 0x200 ≤ a ∧ a < 0x200 + rom.length then rom.getD (a - 0x200) 0
      else 0
    display := fun _ => false
    stack := fun _ => 0
    sp := 0
    V := fun _ => 0
    I := 0
    PC := 0x200
    delay_timer := 0
    sound_timer := 0
    keypad := fun _ => false }

/-- Memory holding the given bytes at `0x200` and zero elsewhere. -/
def romRam (bytes : List Nat) : Nat → Nat :=
  fun a =>
    if 0x200 ≤ a ∧ a < 0x200 + bytes.length then bytes.getD (a - 0x200) 0 else 0

/-- The register-array shape "flag first, result second": `flag` is
written to `V[0xF]`, then `result` of the flag-updated array is
stored into `V[x]`. -/
def flagThenResult (V : Nat → Nat) (x flag : Nat) (result : (Nat → Nat) → Nat) :
    Nat → Nat :=
  upd (upd V 15 flag) x (result (upd V 15 flag))

/-- Between-blit overlap: some sprite bit that the `DXYN` blit with
index register `I`, wrapped start column `sx`, wrapped start row `sy`
and height `n` draws is on at a pixel that is set in `d`. -/
def spriteOverlap (ram : Nat → Nat) (I sx sy n : Nat) (d : Nat → Bool) : Prop :=
  ∃ k t, k < min n (32 - sy) ∧ t < min 8 (64 - sx) ∧
    sBit (u8 (ram (I + k))) (7 - t) = true ∧
    d ((sy + k) * 64 + sx + t) = true

/-- Concrete machine: `8F04` at `PC`, `V0 = 5`, `VF = 0`. -/
def cxC1 : Chip8 :=
  { initChip8 [] with ram := romRam [0x8F, 0x04], V := fun i => if i = 0 then 5 else 0 }

/-- Concrete machine: `8124` at `PC`, `V1 = 200`, `V2 = 100`. -/
def wxC1 : Chip8 :=
  { initChip8 [] with
    ram := romRam [0x81, 0x24]
    V := fun i => if i = 1 then 200 else if i = 2 then 100 else 0 }

/-- Concrete machine: `2345` at `PC` with a full stack (`sp = 12`). -/
def cxC2push : Chip8 :=
  { initChip8 [] with ram := romRam [0x23, 0x45], sp := 12 }

/-- Concrete machine: `00EE` at `PC` with an empty stack (`sp = 0`). -/
def cxC2pop : Chip8 :=
  { initChip8 [] with ram := romRam [0x00, 0xEE] }

/-- Freshly initialized machine whose ROM is `60 FF B FFF`:
set `V0 = 0xFF`, then jump to `V0 + 0xFFF`. -/
def cxC3 : Chip8 := initChip8 [0x60, 0xFF, 0xBF, 0xFF]

/-- Freshly initialized machine with an empty ROM. -/
def wxC3 : Chip8 := initChip8 []

/-- Concrete machine: `D002` at `PC` with `I = 0xFFF`. -/
def cxC4 : Chip8 :=
  { initChip8 [] with ram := romRam [0xD0, 0x02], I := 0xFFF }

/-- Concrete machine: `E09E` at `PC` with `V0 = 16`. -/
def cxC5 : Chip8 :=
  { initChip8 [] with ram := romRam [0xE0, 0x9E], V := fun i => if i = 0 then 16 else 0 }

/-- Concrete machine: `E09E` at `PC`, `V0 = 5`, key 5 pressed. -/
def wxC5 : Chip8 :=
  { initChip8 [] with
    ram := romRam [0xE0, 0x9E]
    V := fun i => if i = 0 then 5 else 0
    keypad := fun i => i == 5 }

/-- Concrete machine: `F029` at `PC` with `V0 = 0x10`. -/
def cxC6 : Chip8 :=
  { initChip8 [] with ram := romRam [0xF0, 0x29], V := fun i => if i = 0 then 0x10 else 0 }

/-- Concrete machine: `F029` at `PC` with `V0 = 7`. -/
def wxC6 : Chip8 :=
  { initChip8 [] with ram := romRam [0xF0, 0x29], V := fun i => if i = 0 then 7 else 0 }

/-- Concrete machine: `F255` at `PC`, `I = 0x300`, `V0 V1 V2 = 1 2 3`. -/
def wxC7 : Chip8 :=
  { initChip8 [] with
    ram := romRam [0xF2, 0x55]
    I := 0x300
    V := fun i => if i = 0 then 1 else if i = 1 then 2 else if i = 2 then 3 else 0 }

/-- Freshly initialized machine, used for a concrete double blit. -/
def wxC8 : Chip8 := initChip8 []

/-- Concrete machine: `F033` at `PC`, `I = 0x300`, `V0 = 156`. -/
def wxC9 : Chip8 :=
  { initChip8 [] with
    ram := romRam [0xF0, 0x33]
    I := 0x300
    V := fun i => if i = 0 then 156 else 0 }

/-- Concrete machine: `C500` at `PC`. -/
def wxC10 : Chip8 :=
  { initChip8 [] with ram := romRam [0xC5, 0x00] }

/-! ### Basic lemmas about array updates and the fetch step -/

theorem upd_same {α : Type} (f : Nat → α) (i : Nat) (v : α) : upd f i v i = v := by
  simp [upd]

theorem upd_ne {α : Type} (f : Nat → α) {i j : Nat} (v : α) (h : j ≠ i) :
    upd f i v j = f j := by
  simp [upd, h]

theorem upd_restore {α : Type} (f : Nat → α) (i : Nat) : upd f i (f i) = f := by
  funext j
  by_cases h : j = i <;> simp [upd, h]

theorem upd_upd_same {α : Type} (f : Nat → α) (i : Nat) (v w : α) :
    upd (upd f i v) i w = upd f i w := by
  funext j
  by_cases h : j = i <;> simp [upd, h]

theorem upd_comm {α : Type} (f : Nat → α) {i j : Nat} (v w : α) (h : i ≠ j) :
    upd (upd f i v) j w = upd (upd f j w) i v := by
  funext a
  unfold upd
  split_ifs with h1 h2
  all_goals try rfl
  all_goals exfalso; omega

theorem emulate_unfold (r : Nat) (c : Chip8) (h : pcget c + 1 < 4096) :
    emulate r c = execOp r { c with PC := u16 (pcget c + 2) } (opcodeAt c) := by
  have h0 : pcget c < 4096 := by omega
  simp [emulate, ramRead, h0, h, opcodeAt]

/-- C9: for every 8-bit value of `VX`, `FX33` writes the three
decimal digits of `VX`: `mem[I] = VX / 100`,
`mem[I+1] = (VX / 10) % 10`, `mem[I+2] = VX % 10`. -/
theorem C9_bcd (r : Nat) (c : Chip8)
    (hpc : pcget c + 1 < 4096)
    (hhi : opcodeAt c >>> 12 = 0xF)
    (hlo : opcodeAt c &&& 0xFF = 0x33)
    (hI : iget c + 2 < 4096) :
    ∃ cf, emulate r c = some cf ∧
      cf.ram (iget c) = vget c ((opcodeAt c >>> 8) &&& 0xF) / 100 ∧
      cf.ram (iget c + 1) = vget c ((opcodeAt c >>> 8) &&& 0xF) / 10 % 10 ∧
      cf.ram (iget c + 2) = vget c ((opcodeAt c >>> 8) &&& 0xF) % 10 := by
  rw [emulate_unfold r c hpc]
  have h16 : (opcodeAt c >>> 12) &&& 0xF = 15 := by rw [hhi]; decide
  simp only [execOp, h16, hlo, ramWrite]
  simp only [iget, u16, vget, u8] at hI ⊢
  have hI1 : c.I % 65536 + 1 < 4096 := by omega
  have hI0 : c.I % 65536 < 4096 := by omega
  rw [if_pos hI]
  simp only [Option.some_bind]
  rw [if_pos hI1]
  simp only [Option.some_bind]
  rw [if_pos hI0]
  refine ⟨_, rfl, ?_, ?_, ?_⟩
  all_goals simp [upd]
  all_goals omega

/-- Helper: masking with `0xF` is the identity below 16. -/
theorem and15_eq (n : Nat) (h : n < 16) : n &&& 15 = n := by
  interval_cases n <;> decide

theorem C9_bcd_witness :
    ∃ cf, emulate 0 wxC9 = some cf ∧
      cf.ram 0x300 = 1 ∧ cf.ram 0x301 = 5 ∧ cf.ram 0x302 = 6 :=
  C9_bcd 0 wxC9 (by decide) (by decide) (by decide) (by decide)

/-- C10: `CXNN` with `NN = 0` ignores the random byte. -/
theorem C10_rand_indep (r1 r2 : Nat) (c : Chip8)
    (hpc : pcget c + 1 < 4096)
    (hhi : opcodeAt c >>> 12 = 0xC)
    (hnn : opcodeAt c &&& 0xFF = 0) :
    emulate r1 c = emulate r2 c ∧
      ∀ cf, emulate r1 c = some cf → cf.V ((opcodeAt c >>> 8) &&& 0xF) = 0 := by
  rw [emulate_unfold r1 c hpc, emulate_unfold r2 c hpc]
  have h16 : (opcodeAt c >>> 12) &&& 0xF = 12 := by rw [hhi]; decide
  simp only [execOp, h16, hnn, Nat.and_zero]
  refine ⟨by trivial, fun cf h => ?_⟩
  obtain rfl := Option.some.inj h
  simp [upd]

theorem C10_witness :
    emulate 7 wxC10 = emulate 99 wxC10 ∧
      ∀ cf, emulate 7 wxC10 = some cf → cf.V 5 = 0 :=
  C10_rand_indep 7 99 wxC10 (by decide) (by decide) (by decide)

/-- C6: `FX29` sets `I` to `VX * 5` (no nibble mask in the code). -/
theorem C6_font_addr (r : Nat) (c : Chip8)
    (hpc : pcget c + 1 < 4096)
    (hhi : opcodeAt c >>> 12 = 0xF)
    (hlo : opcodeAt c &&& 0xFF = 0x29) :
    ∃ cf, emulate r c = some cf ∧
      cf.I = u16 (vget c ((opcodeAt c >>> 8) &&& 0xF) * 5) ∧
      (vget c ((opcodeAt c >>> 8) &&& 0xF) ≤ 0xF →
        cf.I = (vget c ((opcodeAt c >>> 8) &&& 0xF) &&& 0xF) * 5 ∧ cf.I ≤ 0x4B) := by
  rw [emulate_unfold r c hpc]
  have h16 : (opcodeAt c >>> 12) &&& 0xF = 15 := by rw [hhi]; decide
  simp only [execOp, h16, hlo]
  refine ⟨_, rfl, rfl, fun hv => ?_⟩
  have hvx : vget c ((opcodeAt c >>> 8) &&& 0xF) < 16 := by omega
  constructor
  · show u16 (vget c ((opcodeAt c >>> 8) &&& 0xF) * 5) = _
    simp only [u16]
    rw [Nat.mod_eq_of_lt (by omega), and15_eq _ hvx]
  · show u16 (vget c ((opcodeAt c >>> 8) &&& 0xF) * 5) ≤ 0x4B
    simp only [u16]
    rw [Nat.mod_eq_of_lt (by omega)]
    omega

/-- C6 counterexample: `F029` with `V0 = 0x10` sets `I = 80`, while
the claim predicts `(0x10 & 0xF) * 5 = 0`. -/
theorem C6_counterexample :
    (emulate 0 cxC6).map (fun s => s.I) = some 80 ∧
      ((0x10 &&& 0xF) * 5 : Nat) = 0 ∧ (80 : Nat) ≠ 0 := by
  decide

theorem C6_witness :
    ∃ cf, emulate 0 wxC6 = some cf ∧ cf.I = 35 ∧
      ((7 : Nat) ≤ 15 → cf.I = 35 ∧ cf.I ≤ 75) :=
  C6_font_addr 0 wxC6 (by decide) (by decide) (by decide)

/-- C5 (amended): `EX9E`/`EXA1` consult `keypad[VX]` with no mask. -/
theorem C5_key_semantics (r : Nat) (c : Chip8)
    (hpc : pcget c + 1 < 4096)
    (hhi : opcodeAt c >>> 12 = 0xE) :
    (opcodeAt c &&& 0xFF = 0x9E →
      (vget c ((opcodeAt c >>> 8) &&& 0xF) < 16 →
        emulate r c = some (if c.keypad (vget c ((opcodeAt c >>> 8) &&& 0xF))
          then { c with PC := u16 (u16 (pcget c + 2) + 2) }
          else { c with PC := u16 (pcget c + 2) })) ∧
      (16 ≤ vget c ((opcodeAt c >>> 8) &&& 0xF) → emulate r c = none)) ∧
    (opcodeAt c &&& 0xFF = 0xA1 →
      (vget c ((opcodeAt c >>> 8) &&& 0xF) < 16 →
        emulate r c = some (if c.keypad (vget c ((opcodeAt c >>> 8) &&& 0xF))
          then { c with PC := u16 (pcget c + 2) }
          else { c with PC := u16 (u16 (pcget c + 2) + 2) })) ∧
      (16 ≤ vget c ((opcodeAt c >>> 8) &&& 0xF) → emulate r c = none)) := by
  rw [emulate_unfold r c hpc]
  have h16 : (opcodeAt c >>> 12) &&& 0xF = 14 := by rw [hhi]; decide
  simp only [execOp, h16]
  refine ⟨fun hnn => ⟨fun hv => ?_, fun hv => ?_⟩, fun hnn => ⟨fun hv => ?_, fun hv => ?_⟩⟩
  all_goals rw [hnn]
  all_goals simp only [vget, keyRead] at hv ⊢
  · rw [if_pos trivial, if_pos hv]
  · rw [if_pos trivial, if_neg (by omega)]
  · rw [if_neg (by decide), if_pos trivial, if_pos hv]
  · rw [if_neg (by decide), if_pos trivial, if_neg (by omega)]

/-- C5 counterexample: `E09E` with `V0 = 16` reads `keypad[16]` out
of bounds (undefined behavior, `none` here); the claim predicts a
defined step governed by `keypad[16 & 0xF] = keypad[0]`. -/
theorem C5_counterexample : emulate 0 cxC5 = none := by rfl

theorem C5_witness : emulate 0 wxC5 = some { wxC5 with PC := 0x204 } :=
  ((C5_key_semantics 0 wxC5 (by decide) (by decide)).1 (by decide)).1 (by decide)

/-- C1 (amended): for `8XY4/5/6/7/E` the flag is written to `VF`
BEFORE the result is stored in `VX`, and the result store reads the
flag-updated registers. -/
theorem C1_flag_order (r : Nat) (c : Chip8) (x y : Nat)
    (hpc : pcget c + 1 < 4096)
    (hhi : opcodeAt c >>> 12 = 8)
    (hx : (opcodeAt c >>> 8) &&& 0xF = x)
    (hy : (opcodeAt c >>> 4) &&& 0xF = y) :
    (opcodeAt c &&& 0xF = 4 → ∃ cf, emulate r c = some cf ∧
      cf.V = flagThenResult c.V x (if vget c x + vget c y > 255 then 1 else 0)
        (fun W => u8 (u8 (W x) + u8 (W y)))) ∧
    (opcodeAt c &&& 0xF = 5 → ∃ cf, emulate r c = some cf ∧
      cf.V = flagThenResult c.V x (if vget c x ≥ vget c y then 1 else 0)
        (fun W => sub8 (u8 (W x)) (u8 (W y)))) ∧
    (opcodeAt c &&& 0xF = 6 → ∃ cf, emulate r c = some cf ∧
      cf.V = flagThenResult c.V x (vget c x &&& 1)
        (fun W => u8 (W x) >>> 1)) ∧
    (opcodeAt c &&& 0xF = 7 → ∃ cf, emulate r c = some cf ∧
      cf.V = flagThenResult c.V x (if vget c x ≤ vget c y then 1 else 0)
        (fun W => sub8 (u8 (W y)) (u8 (W x)))) ∧
    (opcodeAt c &&& 0xF = 0xE → ∃ cf, emulate r c = some cf ∧
      cf.V = flagThenResult c.V x ((vget c x &&& 0x80) >>> 7)
        (fun W => u8 (u8 (W x) <<< 1))) := by
  rw [emulate_unfold r c hpc]
  have h16 : (opcodeAt c >>> 12) &&& 0xF = 8 := by rw [hhi]; decide
  simp only [execOp, h16, hx, hy]
  refine ⟨fun hn => ?_, fun hn => ?_, fun hn => ?_, fun hn => ?_, fun hn => ?_⟩
  all_goals rw [hn]
  all_goals exact ⟨_, rfl, rfl⟩

/-- C1 counterexample: executing `8F04` with `VF = 0`, `V0 = 5`
leaves `V[0xF] = 5`, not the carry bit (0) the claim predicts. -/
theorem C1_counterexample :
    (emulate 0 cxC1).map (fun s => s.V 15) = some 5 ∧
      (if vget cxC1 15 + vget cxC1 0 > 255 then (1 : Nat) else 0) ≠ 5 := by
  decide

theorem C1_witness :
    ∃ cf, emulate 0 wxC1 = some cf ∧
      cf.V = flagThenResult wxC1.V 1 1 (fun W => u8 (u8 (W 1) + u8 (W 2))) :=
  (C1_flag_order 0 wxC1 1 2 (by decide) (by decide) (by decide) (by decide)).1 (by decide)

/-- Characterization of the `FX55` loop: it succeeds when each store
is in bounds, writes `V[i..i+k)` at `base+i..`, and leaves every
other memory cell unchanged. -/
theorem storeRegs_char (Vf : Nat → Nat) (base : Nat) :
    ∀ (k i : Nat) (ram : Nat → Nat), (∀ t, t < k → base + i + t < 4096) →
    ∃ ram1, storeRegs Vf base i k ram = some ram1 ∧
      (∀ t, t < k → ram1 (base + i + t) = u8 (Vf (i + t))) ∧
      (∀ a, (∀ t, t < k → a ≠ base + i + t) → ram1 a = ram a) := by
  intro k
  induction k with
  | zero =>
    intro i ram h
    exact ⟨ram, rfl, fun t ht => absurd ht (by omega), fun a _ => rfl⟩
  | succ k ih =>
    intro i ram h
    have h0 : base + i < 4096 := by have := h 0 (by omega); omega
    obtain ⟨ram1, hrec, htouch, hother⟩ :=
      ih (i + 1) (upd ram (base + i) (u8 (Vf i)))
        (fun t ht => by have := h (t + 1) (by omega); omega)
    refine ⟨ram1, ?_, ?_, ?_⟩
    · rw [storeRegs, if_pos h0]
      exact hrec
    · intro t ht
      obtain _ | t := t
      · have h2 : ram1 (base + i) = u8 (Vf i) := by
          rw [hother (base + i) (fun s hs => by omega), upd_same]
        simpa using h2
      · have h2 := htouch t (by omega)
        rw [show base + i + (t + 1) = base + (i + 1) + t by omega,
          show i + (t + 1) = i + 1 + t by omega]
        exact h2
    · intro a ha
      have hane : a ≠ base + i := by have := ha 0 (by omega); omega
      rw [hother a (fun s hs => by have := ha (s + 1) (by omega); omega)]
      exact upd_ne ram _ hane

/-- Characterization of the `FX65` loop. -/
theorem loadRegs_char (ram : Nat → Nat) (base : Nat) :
    ∀ (k i : Nat) (Vf : Nat → Nat), (∀ t, t < k → base + i + t < 4096) →
    ∃ V1, loadRegs ram base i k Vf = some V1 ∧
      (∀ t, t < k → V1 (i + t) = u8 (ram (base + i + t))) ∧
      (∀ j, (∀ t, t < k → j ≠ i + t) → V1 j = Vf j) := by
  intro k
  induction k with
  | zero =>
    intro i Vf h
    exact ⟨Vf, rfl, fun t ht => absurd ht (by omega), fun j _ => rfl⟩
  | succ k ih =>
    intro i Vf h
    have h0 : base + i < 4096 := by have := h 0 (by omega); omega
    obtain ⟨V1, hrec, htouch, hother⟩ :=
      ih (i + 1) (upd Vf i (u8 (ram (base + i))))
        (fun t ht => by have := h (t + 1) (by omega); omega)
    refine ⟨V1, ?_, ?_, ?_⟩
    · rw [loadRegs, if_pos h0]
      exact hrec
    · intro t ht
      obtain _ | t := t
      · have h2 : V1 i = u8 (ram (base + i)) := by
          rw [hother i (fun s hs => by omega), upd_same]
        simpa using h2
      · have h2 := htouch t (by omega)
        rw [show i + (t + 1) = i + 1 + t by omega,
          show base + i + (t + 1) = base + (i + 1) + t by omega]
        exact h2
    · intro j hj
      have hjne : j ≠ i := by have := hj 0 (by omega); omega
      rw [hother j (fun s hs => by have := hj (s + 1) (by omega); omega)]
      exact upd_ne Vf _ hjne

/-- C7: `FX55`/`FX65` iterate over exactly `V0..VX` and leave `I`
unchanged. -/
theorem C7_dump_load (r : Nat) (c : Chip8) (x : Nat)
    (hpc : pcget c + 1 < 4096)
    (hhi : opcodeAt c >>> 12 = 0xF)
    (hx : (opcodeAt c >>> 8) &&& 0xF = x)
    (hbound : iget c + x < 4096) :
    (opcodeAt c &&& 0xFF = 0x55 → ∃ cf, emulate r c = some cf ∧
      cf.I = c.I ∧ cf.V = c.V ∧
      (∀ i, i ≤ x → cf.ram (iget c + i) = u8 (c.V i)) ∧
      (∀ a, (∀ i, i ≤ x → a ≠ iget c + i) → cf.ram a = c.ram a)) ∧
    (opcodeAt c &&& 0xFF = 0x65 → ∃ cf, emulate r c = some cf ∧
      cf.I = c.I ∧ cf.ram = c.ram ∧
      (∀ i, i ≤ x → cf.V i = u8 (c.ram (iget c + i))) ∧
      (∀ j, x < j → cf.V j = c.V j)) := by
  rw [emulate_unfold r c hpc]
  have h16 : (opcodeAt c >>> 12) &&& 0xF = 15 := by rw [hhi]; decide
  simp only [execOp, h16, hx]
  constructor
  · intro hnn
    rw [hnn]
    obtain ⟨ram1, hs, htouch, hother⟩ :=
      storeRegs_char c.V (iget c) (x + 1) 0 c.ram (fun t ht => by omega)
    simp only [iget] at hs ⊢
    rw [hs]
    refine ⟨_, rfl, rfl, rfl, fun i hi => ?_, fun a ha => ?_⟩
    · have h2 := htouch i (by omega)
      simpa using h2
    · exact hother a (fun t ht => by have := ha t (by omega); simpa using this)
  · intro hnn
    rw [hnn]
    obtain ⟨V1, hs, htouch, hother⟩ :=
      loadRegs_char c.ram (iget c) (x + 1) 0 c.V (fun t ht => by omega)
    simp only [iget] at hs ⊢
    rw [hs]
    refine ⟨_, rfl, rfl, rfl, fun i hi => ?_, fun j hj => ?_⟩
    · have h2 := htouch i (by omega)
      simpa using h2
    · exact hother j (fun t ht => by omega)

theorem C7_witness :
    ∃ cf, emulate 0 wxC7 = some cf ∧
      cf.I = wxC7.I ∧ cf.V = wxC7.V ∧
      (∀ i, i ≤ 2 → cf.ram (0x300 + i) = u8 (wxC7.V i)) ∧
      (∀ a, (∀ i, i ≤ 2 → a ≠ 0x300 + i) → cf.ram a = wxC7.ram a) :=
  (C7_dump_load 0 wxC7 2 (by decide) (by decide) (by decide) (by decide)).1 (by decide)

/-- C2: contrary to the claim, the stack push of `2NNN` at `SP = 12`
and the pop of `00EE` at `SP = 0` are not turned into a `StackFault`
with a transition to a Halted state: the code performs the
out-of-bounds stack access unchecked (undefined behavior, `none`
here), and `emulator_state_t` has no Halted state at all. -/
theorem C2_stack_unchecked :
    emulate 0 cxC2push = none ∧ emulate 0 cxC2pop = none := by
  constructor <;> rfl

/-- C4: contrary to the claim, the sprite byte of `DXYN` row `r` is
read from `ram[I + r]` with no mod-4096 wrap: with `I = 0xFFF` and
`N = 2` the second row reads `ram[0x1000]` out of bounds (undefined
behavior, `none` here) instead of `mem[0]`. -/
theorem C4_sprite_read_oob : emulate 0 cxC4 = none := by rfl

/-- C3 counterexample: from a freshly loaded ROM `60 FF BF FF`, two
steps (`V0 := 0xFF`, then `BNNN` with `NNN = 0xFFF`) leave
`PC = 0x10FE`, which is not below `0x1000`. -/
theorem C3_counterexample :
    ((emulate 0 cxC3).bind (emulate 0)).map (fun s => s.PC) = some 0x10FE ∧
      ¬ (0x10FE : Nat) < 0x1000 := by
  decide

/-- Any successful `8XYN` sub-step leaves `PC` unchanged. -/
theorem exec8_PC (c : Chip8) (x y n : Nat) (cf : Chip8)
    (h : exec8 c x y n = some cf) : cf.PC = c.PC := by
  unfold exec8 at h
  split at h
  all_goals obtain rfl := Option.some.inj h
  all_goals rfl

/-- Any successful `DXYN` sub-step leaves `PC` unchanged. -/
theorem execDraw_PC (c : Chip8) (x y n : Nat) (cf : Chip8)
    (h : execDraw c x y n = some cf) : cf.PC = c.PC := by
  simp only [execDraw] at h
  split at h
  · obtain rfl := Option.some.inj h
    rfl
  · cases h

set_option maxRecDepth 1024 in
/-- Every successful dispatch keeps `PC` a 16-bit value. -/
theorem execOp_PC (r : Nat) (c : Chip8) (op : Nat) (hc : c.PC < 65536) :
    ∀ cf, execOp r c op = some cf → cf.PC < 65536 := by
  intro cf h
  have hnnn : op &&& 4095 ≤ 4095 := @Nat.and_le_right op 4095
  simp only [execOp, ramWrite] at h
  split at h
  all_goals try (repeat' (first
    | split at h
    | simp only [Option.some_bind, Option.none_bind] at h))
  all_goals try cases h
  case h_9 =>
    rw [exec8_PC _ _ _ _ _ h]
    exact hc
  case h_14 =>
    rw [execDraw_PC _ _ _ _ _ h]
    exact hc
  all_goals try simp only [u16]
  all_goals omega

/-- C3 (amended): after every successful step `PC < 0x10000`. -/
theorem C3_pc_bound (r : Nat) (c : Chip8) :
    ∀ cf, emulate r c = some cf → cf.PC < 65536 := by
  intro cf h
  unfold emulate at h
  split at h
  · exact execOp_PC _ _ _ (Nat.mod_lt _ (by norm_num)) cf h
  · cases h

theorem C3_pc_bound_witness : ∃ cf, emulate 0 wxC3 = some cf ∧ cf.PC < 65536 :=
  ⟨_, rfl, C3_pc_bound 0 wxC3 _ rfl⟩

/-- The collision-flag update of one draw step is 1 exactly when the
step collides or the flag was already 1 (here: equals 1). -/
theorem step_vf_iff (b : Bool) (vf : Nat) :
    ((if b then 1 else vf) = 1) ↔ (b = true ∨ vf = 1) := by
  cases b <;> simp

/-- The inner draw loop only ever keeps or raises the flag to 1. -/
theorem drawRowAux_vf_cases (s y : Nat) :
    ∀ (j x : Nat) (d : Nat → Bool) (vf : Nat),
    (drawRowAux s y j x d vf).2 = vf ∨ (drawRowAux s y j x d vf).2 = 1 := by
  intro j
  induction j with
  | zero =>
    intro x d vf
    simp only [drawRowAux, rowStep]
    split
    · right; rfl
    · left; rfl
  | succ j ih =>
    intro x d vf
    simp only [drawRowAux, rowStep]
    split
    · split
      · right; rfl
      · left; rfl
    · rcases ih (x + 1) (upd d (y * 64 + x) (Bool.xor (d (y * 64 + x)) (sBit s (j + 1))))
        (if sBit s (j + 1) && d (y * 64 + x) then 1 else vf) with h | h
      · rw [h]
        split
        · right; rfl
        · left; rfl
      · right; exact h

/-- Pixels outside the columns the inner loop visits are unchanged. -/
theorem drawRowAux_out (s y : Nat) :
    ∀ (j x : Nat) (d : Nat → Bool) (vf : Nat) (q : Nat),
    x < 64 →
    (∀ t, t < min (j + 1) (64 - x) → q ≠ y * 64 + x + t) →
    (drawRowAux s y j x d vf).1 q = d q := by
  intro j
  induction j with
  | zero =>
    intro x d vf q hx hq
    simp only [drawRowAux, rowStep]
    have h0 : q ≠ y * 64 + x := by have := hq 0 (by omega); omega
    exact upd_ne d _ h0
  | succ j ih =>
    intro x d vf q hx hq
    simp only [drawRowAux, rowStep]
    have h0 : q ≠ y * 64 + x := by have := hq 0 (by omega); omega
    split
    · exact upd_ne d _ h0
    · rename_i hge
      rw [ih (x + 1) _ _ q (by omega)
        (fun t ht => by have := hq (t + 1) (by omega); omega)]
      exact upd_ne d _ h0

/-- Pixels the inner loop visits are XORed with their sprite bit. -/
theorem drawRowAux_touch (s y : Nat) :
    ∀ (j x : Nat) (d : Nat → Bool) (vf : Nat) (t : Nat),
    x < 64 → t < min (j + 1) (64 - x) →
    (drawRowAux s y j x d vf).1 (y * 64 + x + t) =
      Bool.xor (d (y * 64 + x + t)) (sBit s (j - t)) := by
  intro j
  induction j with
  | zero =>
    intro x d vf t hx ht
    have ht0 : t = 0 := by omega
    subst ht0
    simp only [drawRowAux, rowStep]
    simpa using upd_same d (y * 64 + x) _
  | succ j ih =>
    intro x d vf t hx ht
    simp only [drawRowAux, rowStep]
    split
    · rename_i hge
      have ht0 : t = 0 := by omega
      subst ht0
      simpa using upd_same d (y * 64 + x) _
    · rename_i hge
      obtain _ | t := t
      · rw [drawRowAux_out s y j (x + 1) _ _ _ (by omega) (fun t2 ht2 => by omega)]
        simpa using upd_same d (y * 64 + x) _
      · rw [show y * 64 + x + (t + 1) = y * 64 + (x + 1) + t by omega]
        rw [ih (x + 1) _ _ t (by omega) (by omega)]
        rw [upd_ne d _ (by omega)]
        rw [show j + 1 - (t + 1) = j - t by omega]

/-- Collision-flag characterization of the inner draw loop. -/
theorem drawRowAux_vf (s y : Nat) :
    ∀ (j x : Nat) (d : Nat → Bool) (vf : Nat),
    x < 64 →
    ((drawRowAux s y j x d vf).2 = 1 ↔
      vf = 1 ∨ ∃ t, t < min (j + 1) (64 - x) ∧ sBit s (j - t) = true ∧
        d (y * 64 + x + t) = true) := by
  intro j
  induction j with
  | zero =>
    intro x d vf hx
    simp only [drawRowAux, rowStep]
    rw [step_vf_iff]
    constructor
    · rintro (hb | hv)
      · rw [Bool.and_eq_true] at hb
        exact Or.inr ⟨0, by omega, by simpa using hb.1, by simpa using hb.2⟩
      · exact Or.inl hv
    · rintro (hv | ⟨t, ht, h1, h2⟩)
      · exact Or.inr hv
      · left
        have ht0 : t = 0 := by omega
        subst ht0
        rw [Bool.and_eq_true]
        exact ⟨by simpa using h1, by simpa using h2⟩
  | succ j ih =>
    intro x d vf hx
    simp only [drawRowAux, rowStep]
    split
    · rename_i hge
      rw [step_vf_iff]
      constructor
      · rintro (hb | hv)
        · rw [Bool.and_eq_true] at hb
          exact Or.inr ⟨0, by omega, by simpa using hb.1, by simpa using hb.2⟩
        · exact Or.inl hv
      · rintro (hv | ⟨t, ht, h1, h2⟩)
        · exact Or.inr hv
        · left
          have ht0 : t = 0 := by omega
          subst ht0
          rw [Bool.and_eq_true]
          exact ⟨by simpa using h1, by simpa using h2⟩
    · rename_i hge
      rw [ih (x + 1) _ _ (by omega), step_vf_iff]
      constructor
      · rintro ((hb | hv) | ⟨t, ht, h1, h2⟩)
        · rw [Bool.and_eq_true] at hb
          exact Or.inr ⟨0, by omega, by simpa using hb.1, by simpa using hb.2⟩
        · exact Or.inl hv
        · rw [upd_ne d _ (by omega)] at h2
          refine Or.inr ⟨t + 1, by omega, ?_, ?_⟩
          · rw [show j + 1 - (t + 1) = j - t by omega]
            exact h1
          · rw [show y * 64 + x + (t + 1) = y * 64 + (x + 1) + t by omega]
            exact h2
      · rintro (hv | ⟨t, ht, h1, h2⟩)
        · exact Or.inl (Or.inr hv)
        · obtain _ | t := t
          · left; left
            rw [Bool.and_eq_true]
            exact ⟨by simpa using h1, by simpa using h2⟩
          · right
            refine ⟨t, by omega, ?_, ?_⟩
            · rw [show j - t = j + 1 - (t + 1) by omega]
              exact h1
            · rw [upd_ne d _ (by omega),
                show y * 64 + (x + 1) + t = y * 64 + x + (t + 1) by omega]
              exact h2

/-- Full characterization of the row loop of `DXYN`: which pixels are
XORed, that all others are untouched, and when the collision flag ends
up 1. -/
theorem drawAux_char (ram : Nat → Nat) (I ox : Nat) :
    ∀ (n i y : Nat) (d : Nat → Bool) (vf : Nat) (D : Nat → Bool) (VF : Nat),
    y < 32 → ox < 64 →
    drawAux ram I ox n i y d vf = some (D, VF) →
    ((∀ k t, k < min n (32 - y) → t < min 8 (64 - ox) →
      D ((y + k) * 64 + ox + t) =
        Bool.xor (d ((y + k) * 64 + ox + t)) (sBit (u8 (ram (I + i + k))) (7 - t))) ∧
    (∀ q, (∀ k t, k < min n (32 - y) → t < min 8 (64 - ox) →
        q ≠ (y + k) * 64 + ox + t) → D q = d q) ∧
    (VF = 1 ↔ vf = 1 ∨ ∃ k t, k < min n (32 - y) ∧ t < min 8 (64 - ox) ∧
      sBit (u8 (ram (I + i + k))) (7 - t) = true ∧
      d ((y + k) * 64 + ox + t) = true) ∧
    (VF = vf ∨ VF = 1)) := by
  intro n
  induction n with
  | zero =>
    intro i y d vf D VF hy hox h
    obtain ⟨rfl, rfl⟩ := Prod.mk.inj (Option.some.inj h)
    refine ⟨fun k t hk => absurd hk (by omega), fun q _ => rfl, ?_, Or.inl rfl⟩
    constructor
    · exact fun hv => Or.inl hv
    · rintro (hv | ⟨k, t, hk, _⟩)
      · exact hv
      · exact absurd hk (by omega)
  | succ n ih =>
    intro i y d vf D VF hy hox h
    simp only [drawAux] at h
    split at h
    case isFalse => cases h
    rename_i hram
    split at h
    · -- bottom row reached: y + 1 ≥ 32
      rename_i hyend
      have hr := Option.some.inj h
      have hD : (drawRowAux (u8 (ram (I + i))) y 7 ox d vf).1 = D := by rw [hr]
      have hVF : (drawRowAux (u8 (ram (I + i))) y 7 ox d vf).2 = VF := by rw [hr]
      refine ⟨?_, ?_, ?_, ?_⟩
      · intro k t hk ht
        have hk0 : k = 0 := by omega
        subst hk0
        simp only [Nat.add_zero]
        rw [← hD]
        exact drawRowAux_touch _ _ _ _ _ _ _ hox ht
      · intro q hq
        rw [← hD]
        refine drawRowAux_out _ _ _ _ _ _ _ hox (fun t ht => ?_)
        have := hq 0 t (by omega) ht
        simpa using this
      · rw [← hVF]
        rw [drawRowAux_vf _ _ _ _ _ _ hox]
        constructor
        · rintro (hv | ⟨t, ht, h1, h2⟩)
          · exact Or.inl hv
          · exact Or.inr ⟨0, t, by omega, ht, by simpa using h1, by simpa using h2⟩
        · rintro (hv | ⟨k, t, hk, ht, h1, h2⟩)
          · exact Or.inl hv
          · have hk0 : k = 0 := by omega
            subst hk0
            exact Or.inr ⟨t, ht, by simpa using h1, by simpa using h2⟩
      · rw [← hVF]
        exact drawRowAux_vf_cases _ _ _ _ _ _
    · -- continue to the next row
      rename_i hyend
      obtain ⟨ha, hb, hc, hd⟩ :=
        ih (i + 1) (y + 1) (drawRowAux (u8 (ram (I + i))) y 7 ox d vf).1
          (drawRowAux (u8 (ram (I + i))) y 7 ox d vf).2 D VF (by omega) hox h
      have hmin : min (n + 1) (32 - y) = min n (32 - (y + 1)) + 1 := by omega
      refine ⟨?_, ?_, ?_, ?_⟩
      · intro k t hk ht
        obtain _ | k := k
        · simp only [Nat.add_zero]
          rw [hb (y * 64 + ox + t) (fun k2 t2 hk2 ht2 => by omega)]
          exact drawRowAux_touch _ _ _ _ _ _ _ hox ht
        · have hstep := ha k t (by omega) ht
          rw [show y + (k + 1) = y + 1 + k by omega,
            show I + i + (k + 1) = I + (i + 1) + k by omega]
          rw [hstep]
          rw [drawRowAux_out _ _ _ _ _ _ _ hox (fun t2 ht2 => by omega)]
      · intro q hq
        rw [hb q (fun k2 t2 hk2 ht2 => by
          have := hq (k2 + 1) t2 (by omega) ht2
          rw [show y + (k2 + 1) = y + 1 + k2 by omega] at this
          exact this)]
        refine drawRowAux_out _ _ _ _ _ _ _ hox (fun t2 ht2 => ?_)
        have := hq 0 t2 (by omega) ht2
        simpa using this
      · rw [hc, drawRowAux_vf _ _ _ _ _ _ hox]
        constructor
        · rintro ((hv | ⟨t, ht, h1, h2⟩) | ⟨k, t, hk, ht, h1, h2⟩)
          · exact Or.inl hv
          · exact Or.inr ⟨0, t, by omega, ht, by simpa using h1, by simpa using h2⟩
          · rw [drawRowAux_out _ _ _ _ _ _ _ hox (fun t2 ht2 => by omega)] at h2
            refine Or.inr ⟨k + 1, t, by omega, ht, ?_, ?_⟩
            · rw [show I + i + (k + 1) = I + (i + 1) + k by omega]
              exact h1
            · rw [show y + (k + 1) = y + 1 + k by omega]
              exact h2
        · rintro (hv | ⟨k, t, hk, ht, h1, h2⟩)
          · exact Or.inl (Or.inl hv)
          · obtain _ | k := k
            · exact Or.inl (Or.inr ⟨t, ht, by simpa using h1, by simpa using h2⟩)
            · refine Or.inr ⟨k, t, by omega, ht, ?_, ?_⟩
              · rw [show I + (i + 1) + k = I + i + (k + 1) by omega]
                exact h1
              · rw [drawRowAux_out _ _ _ _ _ _ _ hox (fun t2 ht2 => by omega),
                  show y + 1 + k = y + (k + 1) by omega]
                exact h2
      · rcases hd with hd | hd
        · rcases drawRowAux_vf_cases (u8 (ram (I + i))) y 7 ox d vf with hcc | hcc
          · exact Or.inl (hd.trans hcc)
          · exact Or.inr (hd.trans hcc)
        · exact Or.inr hd

/-- Whether the row loop succeeds depends only on `ram`, `I`, the row
window and the row count, not on the display or the flag. -/
theorem drawAux_some (ram : Nat → Nat) (I ox : Nat) :
    ∀ (n i y : Nat) (d : Nat → Bool) (vf : Nat) (P : (Nat → Bool) × Nat),
    drawAux ram I ox n i y d vf = some P →
    ∀ (d2 : Nat → Bool) (vf2 : Nat), ∃ P2, drawAux ram I ox n i y d2 vf2 = some P2 := by
  intro n
  induction n with
  | zero =>
    intro i y d vf P h d2 vf2
    exact ⟨_, rfl⟩
  | succ n ih =>
    intro i y d vf P h d2 vf2
    simp only [drawAux] at h ⊢
    split at h
    · rename_i hram
      rw [if_pos hram]
      split at h
      · rename_i hyend
        rw [if_pos hyend]
        exact ⟨_, rfl⟩
      · rename_i hyend
        rw [if_neg hyend]
        exact ih (i + 1) (y + 1) _ _ _ h _ _
    · cases h

/-- C8: a `DXYN` blit executed twice with unchanged `VX`, `VY`, `N`
and sprite memory restores the framebuffer, and afterwards `VF = 1`
iff some sprite bit overlapped a pixel set between the two blits. -/
theorem C8_double_blit (c c1 c2 : Chip8) (X Y N : Nat)
    (h1 : execDraw c X Y N = some c1)
    (h2 : execDraw c1 X Y N = some c2)
    (hX : vget c1 X = vget c X) (hY : vget c1 Y = vget c Y) :
    c2.display = c.display ∧
    (vget c2 15 = 1 ↔
      spriteOverlap c.ram (iget c) (vget c X % 64) (vget c Y % 32) N c1.display) := by
  have hsx : vget c X % 64 < 64 := Nat.mod_lt _ (by norm_num)
  have hsy : vget c Y % 32 < 32 := Nat.mod_lt _ (by norm_num)
  simp only [execDraw, iget] at h1 h2
  split at h1
  case h_2 => cases h1
  rename_i r1 heq1
  obtain ⟨D1, VF1⟩ := r1
  obtain rfl := Option.some.inj h1
  split at h2
  case h_2 => cases h2
  rename_i r2 heq2
  obtain ⟨D2, VF2⟩ := r2
  obtain rfl := Option.some.inj h2
  rw [hX, hY] at heq2
  obtain ⟨ha1, hb1, hc1, hd1⟩ :=
    drawAux_char c.ram (u16 c.I) (vget c X % 64) N 0 (vget c Y % 32)
      c.display 0 D1 VF1 hsy hsx heq1
  obtain ⟨ha2, hb2, hc2, hd2⟩ :=
    drawAux_char c.ram (u16 c.I) (vget c X % 64) N 0 (vget c Y % 32)
      D1 0 D2 VF2 hsy hsx heq2
  constructor
  · show D2 = c.display
    funext q
    by_cases hq : ∃ k t, k < min N (32 - vget c Y % 32) ∧
        t < min 8 (64 - vget c X % 64) ∧
        q = (vget c Y % 32 + k) * 64 + vget c X % 64 + t
    · obtain ⟨k, t, hk, ht, rfl⟩ := hq
      rw [ha2 k t hk ht, ha1 k t hk ht]
      cases c.display ((vget c Y % 32 + k) * 64 + vget c X % 64 + t) <;>
        cases sBit (u8 (c.ram (u16 c.I + 0 + k))) (7 - t) <;> rfl
    · push_neg at hq
      rw [hb2 q (fun k t hk ht => hq k t hk ht),
        hb1 q (fun k t hk ht => hq k t hk ht)]
  · show u8 ((upd (upd c.V 15 VF1) 15 VF2) 15) = 1 ↔
      spriteOverlap c.ram (u16 c.I) (vget c X % 64) (vget c Y % 32) N D1
    rw [upd_upd_same, upd_same]
    have hu : u8 VF2 = VF2 := by rcases hd2 with h | h <;> rw [h] <;> rfl
    rw [hu, hc2]
    simp only [spriteOverlap, Nat.add_zero]
    simp

theorem C8_witness :
    ({ wxC8 with V := upd (upd wxC8.V 15 0) 15 0 } : Chip8).display = wxC8.display ∧
    (vget { wxC8 with V := upd (upd wxC8.V 15 0) 15 0 } 15 = 1 ↔
      spriteOverlap wxC8.ram (iget wxC8) (vget wxC8 0 % 64) (vget wxC8 1 % 32) 0
        ({ wxC8 with V := upd wxC8.V 15 0 } : Chip8).display) :=
  C8_double_blit wxC8 { wxC8 with V := upd wxC8.V 15 0 }
    { wxC8 with V := upd (upd wxC8.V 15 0) 15 0 } 0 1 0 rfl rfl rfl rfl
